import Mathlib

/-!
Shallow embedding of the market-data retrieval, caching and valuation engine of
the portfolio_rs repository (src/position.rs, src/portfolio.rs, src/main.rs).

Modelling conventions:
* Rust `f64` amounts, prices and quantities are embedded as `ℚ`; the claims under
  study are about control flow and exact algebraic structure, not about binary
  floating-point rounding.
* The four process-wide `HashMap` quote caches are embedded as association lists
  inside an explicit `Caches` state threaded through every fetch.
* The remote Yahoo provider is an explicit environment `Remote` mapping each
  request to its outcome; asynchronous scatter/gather is embedded as the
  sequential interleaving that processes positions in declaration order.
* `yahoo::YahooConnector::new()` (local HTTP-client construction) is treated
  as infallible; its failure mode is a local resource error outside the model.
* `yahoo::YahooError` is embedded as the distinguished `noResult` constructor
  plus an arbitrary display string, since the source only inspects errors via
  their `Display` rendering (`format!("{e}").contains("Bad Request")`).
-/

/-- Embeds `yahoo::YahooError`: `noResult` models `YahooError::NoResult`, and
`err s` models any other error whose `Display` rendering is `s`. -/
inductive YError where
  | noResult : YError
  | err : String → YError
deriving DecidableEq

/-- The `Display` rendering of an error, as used by `format!("{e}")`. -/
def YError.displayStr : YError → String
  | .noResult => "No results for the given request"
  | .err s => s

/-- Decidable equality for `Except`, needed to derive decidable equality of
the embedded response types. -/
def exceptDecEq {ε α : Type} [DecidableEq ε] [DecidableEq α] :
    (a b : Except ε α) → Decidable (a = b)
  | .ok x, .ok y =>
    if h : x = y then isTrue (congrArg Except.ok h)
    else isFalse (fun hc => h (Except.ok.inj hc))
  | .error x, .error y =>
    if h : x = y then isTrue (congrArg Except.error h)
    else isFalse (fun hc => h (Except.error.inj hc))
  | .ok _, .error _ => isFalse (fun hc => Except.noConfusion hc)
  | .error _, .ok _ => isFalse (fun hc => Except.noConfusion hc)

instance {ε α : Type} [DecidableEq ε] [DecidableEq α] : DecidableEq (Except ε α) :=
  exceptDecEq

/-- Embeds a single quote row: only the `close` field is read by the engine. -/
structure Quote where
  close : ℚ
deriving DecidableEq

/-- Embeds `yahoo::YResponse`: the engine only calls `last_quote()` and
`quotes()` on it, so the response is modelled by the outcomes of those two
accessors. -/
structure YResponse where
  lastQuote : Except YError Quote
  quotesList : Except YError (List Quote)
deriving DecidableEq

/-- Embeds the search response of `search_ticker`: the list of the result
items' `short_name` fields. -/
structure SearchResp where
  shortNames : List String
deriving DecidableEq

/-- Embeds `position::Purchase`. -/
structure Purchase where
  date : Option String
  quantity : ℚ
  price : Option ℚ
  fees : Option ℚ
deriving DecidableEq

/-- Embeds `position::PortfolioPosition`. -/
structure PortfolioPosition where
  name : Option String
  ticker : Option String
  asset_class : String
  amount : ℚ
  last_spot : ℚ
  purchases : List Purchase
  previous_close : Option ℚ
deriving DecidableEq

/-- Embeds `portfolio::Portfolio`. -/
structure Portfolio where
  positions : List PortfolioPosition
deriving DecidableEq

/-- Association-list lookup, embedding `HashMap::get`. -/
def alLookup {K V : Type} [DecidableEq K] : List (K × V) → K → Option V
  | [], _ => none
  | (k', v) :: rest, k => if k' = k then some v else alLookup rest k

/-- Association-list insert-or-replace, embedding `HashMap::insert`. -/
def alInsert {K V : Type} [DecidableEq K] : List (K × V) → K → V → List (K × V)
  | [], k, v => [(k, v)]
  | (k', v') :: rest, k, v =>
    if k' = k then (k, v) :: rest else (k', v') :: alInsert rest k v

/-- The four process-wide caches of `src/position.rs`
(`QUOTE_CACHE`, `PREV_CLOSE_CACHE`, `HISTORIC_CACHE`, `NAME_CACHE`). -/
structure Caches where
  quoteCache : List (String × YResponse)
  prevCloseCache : List (String × ℚ)
  historicCache : List ((String × Int) × YResponse)
  nameCache : List (String × String)
deriving DecidableEq

/-- The empty cache state at process start. -/
def Caches.empty : Caches := ⟨[], [], [], []⟩

/-- The remote provider environment: one outcome per request shape issued by
the engine (latest quotes over "1d", 7-day trailing history, 3-day history
from a given date's timestamp, ticker search). -/
structure Remote where
  latestQuotes : String → Except YError YResponse
  quoteHistoryWeek : String → Except YError YResponse
  quoteHistoryAt : String → Int → Except YError YResponse
  searchTicker : String → Except YError SearchResp

/-- Embeds `PortfolioPosition::get_name`. -/
def get_name (pos : PortfolioPosition) : String :=
  match pos.name with
  | some n => n
  | none =>
    match pos.ticker with
    | some t => t
    | none => "Unknown"

/-- Sum of the purchase lots' quantities. -/
def sumQuantities (ps : List Purchase) : ℚ :=
  (ps.map Purchase.quantity).sum

/-- Embeds `PortfolioPosition::get_amount`. -/
def get_amount (pos : PortfolioPosition) : ℚ :=
  if pos.purchases.isEmpty then pos.amount else sumQuantities pos.purchases

/-- Embeds `PortfolioPosition::get_balance`. -/
def get_balance (pos : PortfolioPosition) : ℚ :=
  match pos.ticker with
  | some _ =>
    pos.last_spot *
      (if pos.purchases.isEmpty then pos.amount else sumQuantities pos.purchases)
  | none => pos.amount

/-- One step of the accumulation loop inside `PortfolioPosition::average_cost`:
the accumulator is `(total_quantity, total_cost)`. -/
def avgStep (acc : ℚ × ℚ) (p : Purchase) : ℚ × ℚ :=
  match p.price with
  | some price =>
    if 0 < price then (acc.1 + p.quantity, acc.2 + (p.quantity * price + p.fees.getD 0))
    else acc
  | none => acc

/-- Embeds `PortfolioPosition::average_cost`. -/
def average_cost (pos : PortfolioPosition) : Option ℚ :=
  if pos.purchases.isEmpty then none
  else
    let acc := pos.purchases.foldl avgStep (0, 0)
    if 0 < acc.1 then some (acc.2 / acc.1) else none

/-- Embeds `Portfolio::get_total_value`. -/
def get_total_value (pf : Portfolio) : ℚ :=
  pf.positions.foldl (fun s p => s + get_balance p) 0

/-- Association-list insert-or-add, embedding the `HashMap` update inside
`Portfolio::get_allocation` (`*value += percentage` on an existing class,
`insert` on a new one). -/
def addInsert : List (String × ℚ) → String → ℚ → List (String × ℚ)
  | [], k, v => [(k, v)]
  | (k', v') :: rest, k, v =>
    if k' = k then (k', v' + v) :: rest else (k', v') :: addInsert rest k v

/-- Embeds `Portfolio::get_allocation`: the per-position percentage
`balance / total_value * 100` is computed separately for each position and
added into its asset class's entry. -/
def get_allocation (pf : Portfolio) : List (String × ℚ) :=
  pf.positions.foldl
    (fun m pos => addInsert m pos.asset_class (get_balance pos / get_total_value pf * 100))
    []

/-- Days in a month of the proleptic Gregorian calendar, used by the model of
chrono's strict date validation. -/
def daysInMonth (y : Int) (m : Nat) : Nat :=
  if m = 2 then (if y % 4 = 0 ∧ (y % 100 ≠ 0 ∨ y % 400 = 0) then 29 else 28)
  else if m = 4 ∨ m = 6 ∨ m = 9 ∨ m = 11 then 30 else 31

/-- Days since the Unix epoch of a proleptic Gregorian civil date
(the standard days-from-civil algorithm), used to model
`DateTime<Utc>::timestamp()` of a midnight UTC date. -/
def daysFromCivil (y : Int) (m d : Nat) : Int :=
  let y' : Int := if m ≤ 2 then y - 1 else y
  let era : Int := (if 0 ≤ y' then y' else y' - 399) / 400
  let yoe : Int := y' - era * 400
  let mp : Int := (Int.ofNat m + 9) % 12
  let doy : Int := (153 * mp + 2) / 5 + Int.ofNat d - 1
  let doe : Int := yoe * 365 + yoe / 4 - yoe / 100 + doy
  era * 146097 + doe - 719468

/-- Parses three separator-joined decimal fields, in year-month-day order,
with chrono-style calendar validation. -/
def parseYMDWith (s : String) (sep : Char) : Option (Int × Nat × Nat) :=
  match s.split (· == sep) with
  | [ys, ms, ds] => do
    let y ← ys.toNat?
    let m ← ms.toNat?
    let d ← ds.toNat?
    if 1 ≤ m ∧ m ≤ 12 ∧ 1 ≤ d ∧ d ≤ daysInMonth (Int.ofNat y) m then
      some (Int.ofNat y, m, d)
    else none
  | _ => none

/-- Parses three separator-joined decimal fields, in day-month-year order,
with chrono-style calendar validation. -/
def parseDMYWith (s : String) (sep : Char) : Option (Int × Nat × Nat) :=
  match s.split (· == sep) with
  | [ds, ms, ys] => do
    let y ← ys.toNat?
    let m ← ms.toNat?
    let d ← ds.toNat?
    if 1 ≤ m ∧ m ≤ 12 ∧ 1 ≤ d ∧ d ≤ daysInMonth (Int.ofNat y) m then
      some (Int.ofNat y, m, d)
    else none
  | _ => none

/-- Embeds `position::parse_purchase_date`, returning the midnight-UTC Unix
timestamp of the parsed date: the trimmed input is tried against the formats
`%Y-%m-%d`, `%Y/%m/%d` and `%d-%m-%Y` in this order. -/
def parse_purchase_date (dateStr : String) : Option Int :=
  let s := dateStr.trim
  let parsed :=
    (parseYMDWith s '-').orElse fun _ =>
      (parseYMDWith s '/').orElse fun _ => parseDMYWith s '-'
  parsed.map fun ymd => daysFromCivil ymd.1 ymd.2.1 ymd.2.2 * 86400

/-- Embeds `position::get_quote_price`: attempt the remote latest-quotes call;
on success store the response in `QUOTE_CACHE` and return it; on failure fall
back to the cached response for this ticker, if any, else propagate the
error. -/
def get_quote_price (env : Remote) (st : Caches) (ticker : String) :
    Except YError YResponse × Caches :=
  match env.latestQuotes ticker with
  | .ok resp => (.ok resp, { st with quoteCache := alInsert st.quoteCache ticker resp })
  | .error e =>
    match alLookup st.quoteCache ticker with
    | some cached => (.ok cached, st)
    | none => (.error e, st)

/-- The previous-close extraction of `position::get_previous_close`: the
second-to-last close when at least two quotes came back, else the last close,
else `NoResult`. -/
def prevCloseOf (quotes : List Quote) : Option ℚ :=
  if 2 ≤ quotes.length then (quotes.get? (quotes.length - 2)).map Quote.close
  else quotes.getLast?.map Quote.close

/-- Embeds `position::get_previous_close`: attempt the 7-day trailing history
call; on a successful call, extract the previous close (propagating a
`quotes()` failure or an empty quote list as an error, without touching the
cache); on a failed call, fall back to `PREV_CLOSE_CACHE`, else propagate. -/
def get_previous_close (env : Remote) (st : Caches) (ticker : String) :
    Except YError ℚ × Caches :=
  match env.quoteHistoryWeek ticker with
  | .ok resp =>
    match resp.quotesList with
    | .error e => (.error e, st)
    | .ok quotes =>
      match prevCloseOf quotes with
      | some pc => (.ok pc, { st with prevCloseCache := alInsert st.prevCloseCache ticker pc })
      | none => (.error .noResult, st)
  | .error e =>
    match alLookup st.prevCloseCache ticker with
    | some cached => (.ok cached, st)
    | none => (.error e, st)

/-- Embeds `position::get_historic_price` for a date given by its Unix
timestamp: attempt the 3-day history call starting at the date; on success
store the response in `HISTORIC_CACHE` under `(ticker, timestamp)` and return
it; on failure fall back to the cached response, else propagate. -/
def get_historic_price (env : Remote) (st : Caches) (ticker : String) (dateTs : Int) :
    Except YError YResponse × Caches :=
  match env.quoteHistoryAt ticker dateTs with
  | .ok resp =>
    (.ok resp, { st with historicCache := alInsert st.historicCache (ticker, dateTs) resp })
  | .error e =>
    match alLookup st.historicCache (ticker, dateTs) with
    | some cached => (.ok cached, st)
    | none => (.error e, st)

/-- Embeds `position::get_quote_name`: attempt the ticker search; on a
successful call take the first result's short name (erroring with `NoResult`
on an empty result set, without touching the cache); on a failed call fall
back to `NAME_CACHE`, else propagate. -/
def get_quote_name (env : Remote) (st : Caches) (ticker : String) :
    Except YError String × Caches :=
  match env.searchTicker ticker with
  | .ok resp =>
    match resp.shortNames with
    | nm :: _ => (.ok nm, { st with nameCache := alInsert st.nameCache ticker nm })
    | [] => (.error .noResult, st)
  | .error e =>
    match alLookup st.nameCache ticker with
    | some cached => (.ok cached, st)
    | none => (.error e, st)

/-- The `last_spot` reading drawn from a quote response inside
`handle_position`: the `last_quote()` close when available, else the last
element of `quotes()` (market closed), else the previous `last_spot` value
(no update performed). -/
def lastSpotFrom (resp : YResponse) (old : ℚ) : ℚ :=
  match resp.lastQuote with
  | .ok q => q.close
  | .error _ =>
    match resp.quotesList with
    | .ok qs =>
      match qs.getLast? with
      | some q => q.close
      | none => old
    | .error _ => old

/-- The `needs_price` test of the backfill loop: the lot's price is missing
or non-positive. -/
def purchaseNeedsPrice (p : Purchase) : Bool :=
  match p.price with
  | some v => decide (v ≤ 0)
  | none => true

/-- Embeds the per-lot purchase-price backfill of `handle_position`: a lot
whose price is missing or non-positive, with positive quantity and a parseable
date, gets its price filled (clamped to ≥ 0) from a historic quote fetched
through the historic cache; every other lot is returned unchanged. -/
def backfillOne (env : Remote) (st : Caches) (ticker : String) (p : Purchase) :
    Purchase × Caches :=
  if purchaseNeedsPrice p ∧ 0 < p.quantity then
    match p.date with
    | some dateStr =>
      match parse_purchase_date dateStr with
      | some ts =>
        match get_historic_price env st ticker ts with
        | (.ok resp, st') =>
          match resp.lastQuote with
          | .ok q => ({ p with price := some (max q.close 0) }, st')
          | .error _ =>
            match resp.quotesList with
            | .ok qs =>
              match qs.getLast? with
              | some lastq => ({ p with price := some (max lastq.close 0) }, st')
              | none => (p, st')
            | .error _ => (p, st')
        | (.error _, st') => (p, st')
      | none => (p, st)
    | none => (p, st)
  else (p, st)

/-- The backfill loop of `handle_position` over the whole purchase list,
threading the cache state in declaration order. -/
def backfillList (env : Remote) (ticker : String) :
    Caches → List Purchase → List Purchase × Caches
  | st, [] => ([], st)
  | st, p :: rest =>
    let (p', st1) := backfillOne env st ticker p
    let (rest', st2) := backfillList env ticker st1 rest
    (p' :: rest', st2)

/-- Step 3 of `handle_position`: fetch the previous close for daily
variation; on success set `previous_close`, on failure leave the position
unchanged (error swallowed). -/
def applyPrevClose (env : Remote) (st : Caches) (ticker : String)
    (pos : PortfolioPosition) : PortfolioPosition × Caches :=
  match get_previous_close env st ticker with
  | (.ok pc, st') => ({ pos with previous_close := some pc }, st')
  | (.error _, st') => (pos, st')

/-- Step 4 of `handle_position`: fill missing purchase prices using historic
data; the loop runs only when the purchase list is non-empty. -/
def applyBackfill (env : Remote) (st : Caches) (ticker : String)
    (pos : PortfolioPosition) : PortfolioPosition × Caches :=
  if pos.purchases.isEmpty then (pos, st)
  else
    match backfillList env ticker st pos.purchases with
    | (filled, st') => ({ pos with purchases := filled }, st')

/-- Step 5 of `handle_position`: when no name was provided, look the short
name up through the name cache; the `?` in the source propagates a lookup
failure out of `handle_position`. -/
def applyName (env : Remote) (st : Caches) (ticker : String)
    (pos : PortfolioPosition) : Except YError PortfolioPosition × Caches :=
  match pos.name with
  | some _ => (.ok pos, st)
  | none =>
    match get_quote_name env st ticker with
    | (.ok nm, st') => (.ok { pos with name := some nm }, st')
    | (.error e, st') => (.error e, st')

/-- Steps 3-5 of `handle_position` chained: previous close, purchase-price
backfill, then display-name lookup, threading the caches. -/
def resolveDetails (env : Remote) (st : Caches) (ticker : String)
    (pos1 : PortfolioPosition) : Except YError PortfolioPosition × Caches :=
  match applyPrevClose env st ticker pos1 with
  | (pos2, st2) =>
    match applyBackfill env st2 ticker pos2 with
    | (pos3, st3) => applyName env st3 ticker pos3

/-- Embeds `position::handle_position`. A cash position is returned unchanged
with no fetch. For a ticker position: the latest-price fetch is fatal on
error (`?`); the previous-close fetch and the purchase backfill swallow their
errors; the display-name lookup runs only when `name` is unset and is fatal
on error (`?`). -/
def handle_position (env : Remote) (st : Caches) (pos : PortfolioPosition) :
    Except YError PortfolioPosition × Caches :=
  match pos.ticker with
  | none => (.ok pos, st)
  | some ticker =>
    match get_quote_price env st ticker with
    | (.error e, st1) => (.error e, st1)
    | (.ok quote, st1) =>
      resolveDetails env st1 ticker
        { pos with last_spot := lastSpotFrom quote pos.last_spot }

/-- Boolean test that the first character list occurs at the start of the
second, the base of the substring search below. -/
def subAtStart : List Char → List Char → Bool
  | [], _ => true
  | _ :: _, [] => false
  | a :: as, b :: bs => a == b && subAtStart as bs

/-- Boolean test that the first character list occurs somewhere inside the
second. -/
def subSomewhere (needle : List Char) : List Char → Bool
  | [] => needle.isEmpty
  | c :: rest => subAtStart needle (c :: rest) || subSomewhere needle rest

/-- Embeds Rust's `str::contains` for a literal pattern. -/
def strContainsSub (hay needle : String) : Bool :=
  subSomewhere needle.toList hay.toList

/-- The literal the historic aggregator greps error displays for. -/
def badRequestMarker : String := "Bad Request"

/-- The warning recorded when a fetched response has no last quote
(`"Error getting last quote for {label}: {e}"`). -/
def msgLastQuote (label : String) (e : YError) : String :=
  "Error getting last quote for " ++ label ++ ": " ++ e.displayStr

/-- The warning recorded when a historic fetch fails with a non-Bad-Request
error (`"Error getting historic price data for {label}: {err_str}"`). -/
def msgHistoric (label : String) (e : YError) : String :=
  "Error getting historic price data for " ++ label ++ ": " ++ e.displayStr

/-- The `(ticker, amount, label)` triples collected for the ticker-backed
positions by both historic aggregators, in declaration order; the label is
`get_ticker().unwrap_or(get_name())`. -/
def tickerItems (pf : Portfolio) : List (String × ℚ × String) :=
  pf.positions.filterMap fun p =>
    match p.ticker with
    | some t => some (t, get_amount p, p.ticker.getD (get_name p))
    | none => none

/-- The cash sum accumulated by `get_historic_total_value` over the positions
without a ticker (each contributing `get_amount()`). -/
def cashSum (pf : Portfolio) : ℚ :=
  (pf.positions.filterMap fun p =>
    match p.ticker with
    | some _ => none
    | none => some (get_amount p)).sum

/-- The scatter/gather historic-price fetch phase (`join_all` of
`get_historic_price` tasks), embedded as the declaration-order interleaving
threading the shared caches. -/
def historicFetches (env : Remote) (dateTs : Int) :
    Caches → List String → List (Except YError YResponse) × Caches
  | st, [] => ([], st)
  | st, t :: rest =>
    let (r, st1) := get_historic_price env st t dateTs
    let (rs, st2) := historicFetches env dateTs st1 rest
    (r :: rs, st2)

/-- One step of the aggregation loop shared by both historic aggregators:
accumulator `(sum, errors)`; a successful fetch with a last quote contributes
`close * amount`; a successful fetch without a last quote records a warning; a
failed fetch whose display contains `"Bad Request"` is skipped silently; any
other failed fetch records a warning. -/
def historicStep (acc : ℚ × List String) (item : (String × ℚ × String) × Except YError YResponse) :
    ℚ × List String :=
  match item.2 with
  | .ok resp =>
    match resp.lastQuote with
    | .ok q => (acc.1 + q.close * item.1.2.1, acc.2)
    | .error e => (acc.1, acc.2 ++ [msgLastQuote item.1.2.2 e])
  | .error e =>
    if strContainsSub e.displayStr badRequestMarker then (acc.1, acc.2)
    else (acc.1, acc.2 ++ [msgHistoric item.1.2.2 e])

/-- The separator joining recorded warnings (`errors.join("; ")`). -/
def semicolonSep : String := "; "

/-- Embeds `Portfolio::get_historic_total_value` at a date given by its Unix
timestamp: concurrent per-ticker historic fetches, tolerant aggregation, cash
added directly, and an error only when the aggregate is non-positive and at
least one warning was recorded. -/
def get_historic_total_value (env : Remote) (st : Caches) (pf : Portfolio) (dateTs : Int) :
    Except String ℚ × Caches :=
  let items := tickerItems pf
  let fr := historicFetches env dateTs st (items.map (·.1))
  let agg := (items.zip fr.1).foldl historicStep (0, [])
  let sum := agg.1 + cashSum pf
  if sum ≤ 0 ∧ agg.2 ≠ [] then (.error (String.intercalate semicolonSep agg.2), fr.2)
  else (.ok sum, fr.2)

/-- Embeds `Portfolio::get_historic_securities_value`: identical to the total
aggregator but without the cash contribution. -/
def get_historic_securities_value (env : Remote) (st : Caches) (pf : Portfolio) (dateTs : Int) :
    Except String ℚ × Caches :=
  let items := tickerItems pf
  let fr := historicFetches env dateTs st (items.map (·.1))
  let agg := (items.zip fr.1).foldl historicStep (0, [])
  if agg.1 ≤ 0 ∧ agg.2 ≠ [] then (.error (String.intercalate semicolonSep agg.2), fr.2)
  else (.ok agg.1, fr.2)

/-- Embeds `tui::NetworkStatus`; the source's third variant is named
`Partial`, rendered here as `mixed`. -/
inductive NetworkStatus where
  | connected : NetworkStatus
  | disconnected : NetworkStatus
  | mixed : NetworkStatus
deriving DecidableEq

/-- The connectivity computation of `create_live_portfolio_with_logging`:
`Connected` when no resolution failed, else `Disconnected` when no resolution
succeeded, else the in-between status. -/
def computeNetworkStatus (successful failed : Nat) : NetworkStatus :=
  if failed = 0 then .connected
  else if successful = 0 then .disconnected
  else .mixed

/-- The resolution loop of `create_live_portfolio_with_logging`: every
declared position is resolved (in declaration order, threading the caches);
successes are collected into the portfolio and counted, failures are skipped
and counted. -/
def resolveAll (env : Remote) :
    Caches → List PortfolioPosition → (List PortfolioPosition × Nat × Nat) × Caches
  | st, [] => (([], 0, 0), st)
  | st, p :: rest =>
    let (r, st1) := handle_position env st p
    let (acc, st2) := resolveAll env st1 rest
    match r with
    | .ok p' => ((p' :: acc.1, acc.2.1 + 1, acc.2.2), st2)
    | .error _ => ((acc.1, acc.2.1, acc.2.2 + 1), st2)

/-- Embeds `main::create_live_portfolio_with_logging` (the logging flag only
controls `eprintln!` and is dropped): returns the portfolio of successfully
resolved positions together with the connectivity status computed from the
success/failure counts. -/
def create_live_portfolio_with_logging (env : Remote) (st : Caches)
    (positions : List PortfolioPosition) :
    (Portfolio × NetworkStatus) × Caches :=
  let (acc, st') := resolveAll env st positions
  ((⟨acc.1⟩, computeNetworkStatus acc.2.1 acc.2.2), st')

/-- True exactly on the `error` constructor. -/
def exceptIsErr {ε α : Type} : Except ε α → Bool
  | .ok _ => false
  | .error _ => true

/-- The spec's `get_or_fetch` contract (section 4.1): on fetch success return
the value, on fetch failure return the cached value if present, else the
fetch error. Claim-side definition used to compare the four concrete
fetchers against the stated contract. -/
def getOrFetchSpec {V : Type} (cached : Option V) (fetched : Except YError V) :
    Except YError V :=
  match fetched with
  | .ok v => .ok v
  | .error e =>
    match cached with
    | some v => .ok v
    | none => .error e

/-- The value `get_previous_close` extracts from a transport-successful
response: a `quotes()` failure propagates; an empty quote list yields
`NoResult`. -/
def prevCloseResult (resp : YResponse) : Except YError ℚ :=
  match resp.quotesList with
  | .error e => .error e
  | .ok qs =>
    match prevCloseOf qs with
    | some pc => .ok pc
    | none => .error .noResult

/-- The value `get_quote_name` extracts from a transport-successful search
response: the first short name, or `NoResult` when the result set is empty. -/
def nameResult (resp : SearchResp) : Except YError String :=
  match resp.shortNames with
  | nm :: _ => .ok nm
  | [] => .error .noResult

/-- Claim-side sum of the per-ticker contributions of a historic aggregation:
each item contributes `close * amount` when its fetch produced a last quote
and nothing otherwise, independently of every other item. -/
def histContribution : List ((String × ℚ × String) × Except YError YResponse) → ℚ
  | [] => 0
  | it :: rest =>
    (match it.2 with
     | .ok resp =>
       match resp.lastQuote with
       | .ok q => q.close * it.1.2.1
       | .error _ => 0
     | .error _ => 0) + histContribution rest

/-- Claim-side warning list of a historic aggregation: a fetched response
without a last quote records a warning; a failed fetch whose display contains
`"Bad Request"` records nothing; any other failed fetch records a warning. -/
def histWarnings : List ((String × ℚ × String) × Except YError YResponse) → List String
  | [] => []
  | it :: rest =>
    (match it.2 with
     | .ok resp =>
       match resp.lastQuote with
       | .ok _ => []
       | .error e => [msgLastQuote it.1.2.2 e]
     | .error e =>
       if strContainsSub e.displayStr badRequestMarker then []
       else [msgHistoric it.1.2.2 e]) ++ histWarnings rest

/-- Does the lot have a known positive price (the filter of `average_cost`)? -/
def lotHasKnownPositivePrice (p : Purchase) : Bool :=
  match p.price with
  | some v => decide (0 < v)
  | none => false

/-- Total quantity over the lots with a known positive price. -/
def filteredQty (l : List Purchase) : ℚ :=
  ((l.filter lotHasKnownPositivePrice).map Purchase.quantity).sum

/-- Total cost (quantity × price + fees, missing fees as 0) over the lots
with a known positive price. -/
def filteredCost (l : List Purchase) : ℚ :=
  ((l.filter lotHasKnownPositivePrice).map
    (fun p => p.quantity * p.price.getD 0 + p.fees.getD 0)).sum

/-- Claim-side average cost exactly as claim C7 words it: the cost/quantity
ratio over exactly the lots with a known positive price, `none` exactly when
no such lot exists. -/
def average_cost_claimC7 (pos : PortfolioPosition) : Option ℚ :=
  if (pos.purchases.filter lotHasKnownPositivePrice).isEmpty then none
  else some (filteredCost pos.purchases / filteredQty pos.purchases)

/-- Sum of the values of an allocation map. -/
def sumValues (m : List (String × ℚ)) : ℚ :=
  (m.map (·.2)).sum

/-- An unreachable provider: every remote request fails. -/
def Unreachable (env : Remote) : Prop :=
  (∀ t, exceptIsErr (env.latestQuotes t) = true) ∧
  (∀ t, exceptIsErr (env.quoteHistoryWeek t) = true) ∧
  (∀ t ts, exceptIsErr (env.quoteHistoryAt t ts) = true) ∧
  (∀ t, exceptIsErr (env.searchTicker t) = true)

/-- Warm caches for a declared position list: every ticker has a cached
latest-quote response, and every nameless ticker position has a cached
display name. -/
def WarmFor (st : Caches) (ps : List PortfolioPosition) : Prop :=
  ∀ p ∈ ps, ∀ t, p.ticker = some t →
    (alLookup st.quoteCache t).isSome = true ∧
    (p.name = none → (alLookup st.nameCache t).isSome = true)

/-- Frame relation between a declared lot and its resolved counterpart: date,
quantity and fees are unchanged, and an already positive price is
unchanged. -/
def lotFrame (p q : Purchase) : Prop :=
  q.date = p.date ∧ q.quantity = p.quantity ∧ q.fees = p.fees ∧
    (∀ v, p.price = some v → 0 < v → q.price = some v)

/-- Pairwise frame relation between the declared and the resolved purchase
lists. -/
def lotsFrame : List Purchase → List Purchase → Prop
  | [], [] => True
  | p :: ps, q :: qs => lotFrame p q ∧ lotsFrame ps qs
  | _, _ => False

/-- A provider environment whose every request fails (used as a concrete
unreachable provider). -/
def envDown : Remote :=
  ⟨fun _ => .error .noResult, fun _ => .error .noResult,
   fun _ _ => .error .noResult, fun _ => .error .noResult⟩

/-- A concrete quote response with a last quote at close 123. -/
def respOk : YResponse := ⟨.ok ⟨123⟩, .ok [⟨123⟩]⟩

/-- A concrete provider whose latest-quote call succeeds with `respOk` and
whose other calls fail. -/
def envOkQuote : Remote :=
  ⟨fun _ => .ok respOk, fun _ => .error (.err "net down"),
   fun _ _ => .error (.err "net down"), fun _ => .error (.err "search failed")⟩

/-- A concrete transport-successful weekly-history response carrying no
usable quotes. -/
def respNoQuotes : YResponse := ⟨.error (.err "empty data set"), .ok []⟩

/-- A concrete provider whose weekly-history call returns `respNoQuotes` and
whose other calls fail. -/
def envWeekEmpty : Remote :=
  ⟨fun _ => .error .noResult, fun _ => .ok respNoQuotes,
   fun _ _ => .error .noResult, fun _ => .error .noResult⟩

/-- A cache state whose previous-close cache is primed with 42 for "T". -/
def stPrimedPrev : Caches := ⟨[], [("T", 42)], [], []⟩

/-- A concrete nameless ticker position with no purchase lots. -/
def posNameless : PortfolioPosition := ⟨none, some "XYZ", "Stock", 2, 0, [], none⟩

/-- A concrete cash position. -/
def posCash : PortfolioPosition := ⟨some "Cash", none, "Cash", 1000, 0, [], none⟩

/-- A concrete named ticker position with one complete purchase lot. -/
def posNamed : PortfolioPosition :=
  ⟨some "N", some "T", "Stock", 5, 0, [⟨some "2020-01-01", 2, some 50, some 1⟩], none⟩

/-- The single purchase lot of the spec's average-cost example:
quantity 10, price 100, fees 5. -/
def lotQty10 : Purchase := ⟨none, 10, some 100, some 5⟩

/-- A position holding only `lotQty10`. -/
def posLot10 : PortfolioPosition := ⟨none, some "T", "Stock", 1, 0, [lotQty10], none⟩

/-- A position holding one negative-quantity lot with a known positive
price. -/
def posNegQty : PortfolioPosition :=
  ⟨none, some "T", "Stock", 1, 0, [⟨none, -1, some 100, none⟩], none⟩

/-- A quote response whose both accessors yield close `c`. -/
def respQ (c : ℚ) : YResponse := ⟨.ok ⟨c⟩, .ok [⟨c⟩]⟩

/-- A provider for the historic-aggregation scenario: historic fetches
succeed for "AAA" (close 10) and "BBB" (close 20) and fail with a
Bad-Request display for every other ticker. -/
def envHist : Remote :=
  ⟨fun _ => .error .noResult, fun _ => .error .noResult,
   fun t _ =>
     if t = "AAA" then .ok (respQ 10)
     else if t = "BBB" then .ok (respQ 20)
     else .error (.err "HTTP 400 Bad Request"),
   fun _ => .error .noResult⟩

/-- Three ticker positions (two resolvable, one Bad-Request) plus cash 100. -/
def pfHist : Portfolio :=
  ⟨[⟨some "Cash", none, "Cash", 100, 0, [], none⟩,
    ⟨some "A", some "AAA", "Stock", 2, 0, [], none⟩,
    ⟨some "B", some "BBB", "Stock", 3, 0, [], none⟩,
    ⟨some "C", some "CCC", "Stock", 4, 0, [], none⟩]⟩

/-- A provider whose historic fetches all fail with a non-Bad-Request
display. -/
def envHistDown : Remote :=
  ⟨fun _ => .error .noResult, fun _ => .error .noResult,
   fun _ _ => .error (.err "timeout"), fun _ => .error .noResult⟩

/-- One ticker position and no cash. -/
def pfHistNoCash : Portfolio := ⟨[⟨some "A", some "AAA", "Stock", 2, 0, [], none⟩]⟩

/-- Two cash positions (30 and 70) in distinct asset classes. -/
def pfAlloc : Portfolio :=
  ⟨[⟨some "a", none, "A", 30, 0, [], none⟩, ⟨some "b", none, "B", 70, 0, [], none⟩]⟩

/-- A warm cache for `posNamed`: its ticker has a cached quote response. -/
def stWarmNamed : Caches := ⟨[("T", respOk)], [], [], []⟩

/-- The expected result of resolving `posNamed` against `envOkQuote`: only
`last_spot` is written. -/
def posNamedResolved : PortfolioPosition :=
  ⟨some "N", some "T", "Stock", 5, 123, [⟨some "2020-01-01", 2, some 50, some 1⟩], none⟩

theorem foldlAddSum {α : Type} (g : α → ℚ) :
    ∀ (l : List α) (s : ℚ), l.foldl (fun a x => a + g x) s = s + (l.map g).sum := by
  intro l
  induction l with
  | nil => intro s; simp
  | cons x l ih => intro s; simp [ih]; ring

theorem get_total_value_eq (pf : Portfolio) :
    get_total_value pf = (pf.positions.map get_balance).sum := by
  unfold get_total_value
  simpa using foldlAddSum get_balance pf.positions 0

theorem avgFoldEq :
    ∀ (l : List Purchase) (q c : ℚ),
      l.foldl avgStep (q, c) = (q + filteredQty l, c + filteredCost l) := by
  intro l
  induction l with
  | nil => intro q c; simp [filteredQty, filteredCost]
  | cons p l ih =>
    intro q c
    simp only [List.foldl_cons]
    rcases hp : p.price with _ | price
    · have hl : lotHasKnownPositivePrice p = false := by
        simp [lotHasKnownPositivePrice, hp]
      simp [avgStep, hp, ih, filteredQty, filteredCost, List.filter_cons, hl]
    · by_cases h0 : 0 < price
      · have hl : lotHasKnownPositivePrice p = true := by
          simp [lotHasKnownPositivePrice, hp, h0]
        have hprice : p.price.getD 0 = price := by simp [hp]
        simp only [avgStep, hp, h0, if_pos, ih, filteredQty, filteredCost,
          List.filter_cons, hl, if_true, List.map_cons, List.sum_cons, hprice,
          Option.getD_some, Prod.mk.injEq]
        constructor <;> ring
      · have hl : lotHasKnownPositivePrice p = false := by
          simp [lotHasKnownPositivePrice, hp, h0]
        simp [avgStep, hp, h0, ih, filteredQty, filteredCost, List.filter_cons, hl]

theorem histFoldEq :
    ∀ (l : List ((String × ℚ × String) × Except YError YResponse)) (s : ℚ) (es : List String),
      l.foldl historicStep (s, es) = (s + histContribution l, es ++ histWarnings l) := by
  intro l
  induction l with
  | nil => intro s es; simp [histContribution, histWarnings]
  | cons it l ih =>
    intro s es
    simp only [List.foldl_cons]
    rcases hres : it.2 with e | resp
    · by_cases hbr : strContainsSub e.displayStr badRequestMarker = true
      · simp [historicStep, hres, hbr, ih, histContribution, histWarnings]
      · simp [historicStep, hres, hbr, ih, histContribution, histWarnings]
        try ring
    · rcases hlq : resp.lastQuote with e | q
      · simp [historicStep, hres, hlq, ih, histContribution, histWarnings]
        try ring
      · simp [historicStep, hres, hlq, ih, histContribution, histWarnings]
        try ring

theorem alLookup_addInsert (m : List (String × ℚ)) (k : String) (v : ℚ) (c : String) :
    alLookup (addInsert m k v) c =
      if c = k then some ((alLookup m c).getD 0 + v) else alLookup m c := by
  induction m with
  | nil =>
    by_cases h : c = k
    · subst h
      simp [addInsert, alLookup]
    · have h2 : ¬ k = c := fun hh => h hh.symm
      simp [addInsert, alLookup, h, h2]
  | cons kv m ih =>
    obtain ⟨k', v'⟩ := kv
    by_cases hk : k' = k
    · subst hk
      by_cases hc : c = k'
      · subst hc
        simp [addInsert, alLookup]
      · have h2 : ¬ k' = c := fun hh => hc hh.symm
        simp [addInsert, alLookup, hc, h2]
    · by_cases hc : k' = c
      · subst hc
        have hck : ¬ k' = k := hk
        simp [addInsert, alLookup, hk, hck]
      · simp [addInsert, alLookup, hk, hc, ih]

theorem sumValues_addInsert (m : List (String × ℚ)) (k : String) (v : ℚ) :
    sumValues (addInsert m k v) = sumValues m + v := by
  induction m with
  | nil => simp [addInsert, sumValues]
  | cons kv m ih =>
    obtain ⟨k', v'⟩ := kv
    by_cases hk : k' = k
    · simp [addInsert, hk, sumValues]
      ring
    · simp [addInsert, hk, sumValues] at ih ⊢
      rw [ih]
      ring

theorem allocFoldSum (f : PortfolioPosition → String) (g : PortfolioPosition → ℚ) :
    ∀ (l : List PortfolioPosition) (m : List (String × ℚ)),
      sumValues (l.foldl (fun acc pos => addInsert acc (f pos) (g pos)) m) =
        sumValues m + (l.map g).sum := by
  intro l
  induction l with
  | nil => intro m; simp
  | cons pos l ih =>
    intro m
    simp only [List.foldl_cons, List.map_cons, List.sum_cons]
    rw [ih, sumValues_addInsert]
    ring

theorem allocFoldLookup (f : PortfolioPosition → String) (g : PortfolioPosition → ℚ) :
    ∀ (l : List PortfolioPosition) (m : List (String × ℚ)) (c : String),
      alLookup (l.foldl (fun acc pos => addInsert acc (f pos) (g pos)) m) c =
        (if (l.filter fun pos => decide (f pos = c)) = [] then alLookup m c
         else some ((alLookup m c).getD 0 +
           ((l.filter fun pos => decide (f pos = c)).map g).sum)) := by
  intro l
  induction l with
  | nil => intro m c; simp
  | cons pos l ih =>
    intro m c
    simp only [List.foldl_cons]
    rw [ih]
    by_cases hc : f pos = c
    · have hfilter : ((pos :: l).filter fun p => decide (f p = c)) =
          pos :: (l.filter fun p => decide (f p = c)) := by
        simp [List.filter_cons, hc]
      have hlk : alLookup (addInsert m (f pos) (g pos)) c =
          some ((alLookup m c).getD 0 + g pos) := by
        rw [alLookup_addInsert]
        simp [hc]
      rw [hfilter]
      have hne : (pos :: (l.filter fun p => decide (f p = c))) ≠ [] := by simp
      by_cases hemp : (l.filter fun p => decide (f p = c)) = []
      · rw [if_pos hemp, hlk, if_neg hne, hemp]
        simp
      · rw [if_neg hemp, if_neg hne, hlk]
        simp only [Option.getD_some, List.map_cons, List.sum_cons]
        congr 1
        ring
    · have hfilter : ((pos :: l).filter fun p => decide (f p = c)) =
          (l.filter fun p => decide (f p = c)) := by
        simp [List.filter_cons, hc]
      have hck : ¬ c = f pos := fun hh => hc hh.symm
      have hlk : alLookup (addInsert m (f pos) (g pos)) c = alLookup m c := by
        rw [alLookup_addInsert, if_neg hck]
      rw [hfilter, hlk]

theorem get_quote_price_nameCache (env : Remote) (st : Caches) (t : String) :
    ((get_quote_price env st t).2).nameCache = st.nameCache := by
  unfold get_quote_price
  rcases env.latestQuotes t with e | r
  · rcases alLookup st.quoteCache t with _ | c <;> rfl
  · rfl

theorem get_previous_close_nameCache (env : Remote) (st : Caches) (t : String) :
    ((get_previous_close env st t).2).nameCache = st.nameCache := by
  unfold get_previous_close
  split
  · split
    · rfl
    · split
      · rfl
      · rfl
  · split
    · rfl
    · rfl

theorem get_historic_price_nameCache (env : Remote) (st : Caches) (t : String) (ts : Int) :
    ((get_historic_price env st t ts).2).nameCache = st.nameCache := by
  unfold get_historic_price
  split
  · rfl
  · split
    · rfl
    · rfl

theorem backfillOne_nameCache (env : Remote) (st : Caches) (t : String) (p : Purchase) :
    ((backfillOne env st t p).2).nameCache = st.nameCache := by
  unfold backfillOne
  split
  · split
    · split
      · rename_i xOpt ts hts
        rcases hgp : get_historic_price env st t ts with ⟨r, st'⟩
        have hnc : st'.nameCache = st.nameCache := by
          have h2 := get_historic_price_nameCache env st t ts
          rw [hgp] at h2
          exact h2
        rcases r with e | resp
        · exact hnc
        · obtain ⟨lq, ql⟩ := resp
          rcases lq with e2 | q
          · rcases ql with e3 | qs
            · exact hnc
            · rcases hql : qs.getLast? with _ | lastq <;> simpa [hql] using hnc
          · exact hnc
      · rfl
    · rfl
  · rfl

theorem backfillList_nameCache (env : Remote) (t : String) :
    ∀ (ps : List Purchase) (st : Caches),
      ((backfillList env t st ps).2).nameCache = st.nameCache := by
  intro ps
  induction ps with
  | nil => intro st; rfl
  | cons p ps ih =>
    intro st
    simp only [backfillList]
    rcases h1 : backfillOne env st t p with ⟨pp, st1⟩
    have e1 : st1.nameCache = st.nameCache := by
      have h := backfillOne_nameCache env st t p
      rw [h1] at h
      exact h
    simpa using (ih st1).trans e1

theorem applyPrevClose_fst (env : Remote) (st : Caches) (t : String)
    (pos : PortfolioPosition) :
    ((applyPrevClose env st t pos).1).name = pos.name ∧
    ((applyPrevClose env st t pos).1).ticker = pos.ticker ∧
    ((applyPrevClose env st t pos).1).asset_class = pos.asset_class ∧
    ((applyPrevClose env st t pos).1).amount = pos.amount ∧
    ((applyPrevClose env st t pos).1).last_spot = pos.last_spot ∧
    ((applyPrevClose env st t pos).1).purchases = pos.purchases := by
  unfold applyPrevClose
  rcases h : get_previous_close env st t with ⟨r, st'⟩
  rcases r with e | pc <;> simp

theorem applyPrevClose_nameCache (env : Remote) (st : Caches) (t : String)
    (pos : PortfolioPosition) :
    ((applyPrevClose env st t pos).2).nameCache = st.nameCache := by
  unfold applyPrevClose
  rcases h : get_previous_close env st t with ⟨r, st'⟩
  have hn := get_previous_close_nameCache env st t
  rw [h] at hn
  rcases r with e | pc <;> simpa using hn

theorem applyBackfill_fst (env : Remote) (st : Caches) (t : String)
    (pos : PortfolioPosition) :
    ((applyBackfill env st t pos).1).name = pos.name ∧
    ((applyBackfill env st t pos).1).ticker = pos.ticker ∧
    ((applyBackfill env st t pos).1).asset_class = pos.asset_class ∧
    ((applyBackfill env st t pos).1).amount = pos.amount ∧
    ((applyBackfill env st t pos).1).last_spot = pos.last_spot ∧
    ((applyBackfill env st t pos).1).previous_close = pos.previous_close := by
  unfold applyBackfill
  by_cases he : pos.purchases.isEmpty
  · simp [he]
  · rcases h : backfillList env t st pos.purchases with ⟨filled, st'⟩
    simp [he]

theorem applyBackfill_nameCache (env : Remote) (st : Caches) (t : String)
    (pos : PortfolioPosition) :
    ((applyBackfill env st t pos).2).nameCache = st.nameCache := by
  unfold applyBackfill
  by_cases he : pos.purchases.isEmpty
  · simp [he]
  · rcases h : backfillList env t st pos.purchases with ⟨filled, st'⟩
    have hn := backfillList_nameCache env t pos.purchases st
    rw [h] at hn
    simpa [he] using hn

theorem get_quote_name_fst_congr (env : Remote) (st st' : Caches) (t : String)
    (h : st.nameCache = st'.nameCache) :
    (get_quote_name env st t).1 = (get_quote_name env st' t).1 := by
  unfold get_quote_name
  rcases env.searchTicker t with e | resp
  · rw [h]
    rcases alLookup st'.nameCache t with _ | c <;> rfl
  · obtain ⟨names⟩ := resp
    rcases names with _ | ⟨nm, rest⟩ <;> rfl

theorem applyName_isErr (env : Remote) (st : Caches) (t : String)
    (pos : PortfolioPosition) :
    exceptIsErr (applyName env st t pos).1 =
      (pos.name.isNone && exceptIsErr (get_quote_name env st t).1) := by
  unfold applyName
  rcases hn : pos.name with _ | n
  · rcases hq : get_quote_name env st t with ⟨r, st'⟩
    rcases r with e | nm <;> simp [exceptIsErr]
  · simp [exceptIsErr]

theorem get_quote_price_offline (env : Remote) (st : Caches) (t : String)
    (h : exceptIsErr (env.latestQuotes t) = true) :
    (get_quote_price env st t).2 = st := by
  unfold get_quote_price
  rcases hq : env.latestQuotes t with e | r
  · rcases alLookup st.quoteCache t with _ | c <;> rfl
  · rw [hq] at h
    simp [exceptIsErr] at h

theorem get_previous_close_offline (env : Remote) (st : Caches) (t : String)
    (h : exceptIsErr (env.quoteHistoryWeek t) = true) :
    (get_previous_close env st t).2 = st := by
  unfold get_previous_close
  rcases hq : env.quoteHistoryWeek t with e | r
  · rcases alLookup st.prevCloseCache t with _ | c <;> rfl
  · rw [hq] at h
    simp [exceptIsErr] at h

theorem get_historic_price_offline (env : Remote) (st : Caches) (t : String) (ts : Int)
    (h : exceptIsErr (env.quoteHistoryAt t ts) = true) :
    (get_historic_price env st t ts).2 = st := by
  unfold get_historic_price
  rcases hq : env.quoteHistoryAt t ts with e | r
  · rcases alLookup st.historicCache (t, ts) with _ | c <;> rfl
  · rw [hq] at h
    simp [exceptIsErr] at h

theorem get_quote_name_offline (env : Remote) (st : Caches) (t : String)
    (h : exceptIsErr (env.searchTicker t) = true) :
    (get_quote_name env st t).2 = st := by
  unfold get_quote_name
  rcases hq : env.searchTicker t with e | r
  · rcases alLookup st.nameCache t with _ | c <;> rfl
  · rw [hq] at h
    simp [exceptIsErr] at h

theorem backfillOne_offline (env : Remote) (t : String)
    (h : ∀ ts, exceptIsErr (env.quoteHistoryAt t ts) = true) (st : Caches) (p : Purchase) :
    (backfillOne env st t p).2 = st := by
  unfold backfillOne
  split
  · split
    · split
      · rename_i xOpt ts hts
        rcases hgp : get_historic_price env st t ts with ⟨r, st'⟩
        have hst : st' = st := by
          have h2 := get_historic_price_offline env st t ts (h ts)
          rw [hgp] at h2
          exact h2
        rcases r with e | resp
        · exact hst
        · obtain ⟨lq, ql⟩ := resp
          rcases lq with e2 | q
          · rcases ql with e3 | qs
            · exact hst
            · rcases hql : qs.getLast? with _ | lastq <;> simpa [hql] using hst
          · exact hst
      · rfl
    · rfl
  · rfl

theorem backfillList_offline (env : Remote) (t : String)
    (h : ∀ ts, exceptIsErr (env.quoteHistoryAt t ts) = true) :
    ∀ (ps : List Purchase) (st : Caches), (backfillList env t st ps).2 = st := by
  intro ps
  induction ps with
  | nil => intro st; rfl
  | cons p ps ih =>
    intro st
    simp only [backfillList]
    rcases h1 : backfillOne env st t p with ⟨pp, st1⟩
    have e1 : st1 = st := by
      have h2 := backfillOne_offline env t h st p
      rw [h1] at h2
      exact h2
    simpa using (ih st1).trans e1

theorem applyPrevClose_offline (env : Remote) (st : Caches) (t : String)
    (pos : PortfolioPosition) (h : exceptIsErr (env.quoteHistoryWeek t) = true) :
    (applyPrevClose env st t pos).2 = st := by
  unfold applyPrevClose
  rcases hq : get_previous_close env st t with ⟨r, st'⟩
  have hst : st' = st := by
    have h2 := get_previous_close_offline env st t h
    rw [hq] at h2
    exact h2
  rcases r with e | pc <;> simpa using hst

theorem applyBackfill_offline (env : Remote) (st : Caches) (t : String)
    (pos : PortfolioPosition) (h : ∀ ts, exceptIsErr (env.quoteHistoryAt t ts) = true) :
    (applyBackfill env st t pos).2 = st := by
  unfold applyBackfill
  by_cases he : pos.purchases.isEmpty
  · simp [he]
  · rcases hb : backfillList env t st pos.purchases with ⟨filled, st'⟩
    have hst : st' = st := by
      have h2 := backfillList_offline env t h pos.purchases st
      rw [hb] at h2
      exact h2
    simpa [he] using hst

theorem applyName_offline (env : Remote) (st : Caches) (t : String)
    (pos : PortfolioPosition) (h : exceptIsErr (env.searchTicker t) = true) :
    (applyName env st t pos).2 = st := by
  unfold applyName
  rcases pos.name with _ | n
  · rcases hq : get_quote_name env st t with ⟨r, st'⟩
    have hst : st' = st := by
      have h2 := get_quote_name_offline env st t h
      rw [hq] at h2
      exact h2
    rcases r with e | nm <;> simpa using hst
  · rfl

theorem resolveDetails_offline (env : Remote) (henv : Unreachable env)
    (st : Caches) (t : String) (pos1 : PortfolioPosition) :
    (resolveDetails env st t pos1).2 = st := by
  unfold resolveDetails
  rcases hp2 : applyPrevClose env st t pos1 with ⟨pos2, st2⟩
  have hst2 : st2 = st := by
    have h2 := applyPrevClose_offline env st t pos1 (henv.2.1 t)
    rw [hp2] at h2
    exact h2
  dsimp only
  rcases hp3 : applyBackfill env st2 t pos2 with ⟨pos3, st3⟩
  have hst3 : st3 = st2 := by
    have h2 := applyBackfill_offline env st2 t pos2 (henv.2.2.1 t)
    rw [hp3] at h2
    exact h2
  have h4 := applyName_offline env st3 t pos3 (henv.2.2.2 t)
  rw [h4, hst3, hst2]

theorem handle_position_offline (env : Remote) (henv : Unreachable env)
    (st : Caches) (pos : PortfolioPosition) :
    (handle_position env st pos).2 = st := by
  unfold handle_position
  split
  · rfl
  · rename_i tOpt t heq
    rcases hq : get_quote_price env st t with ⟨r, st1⟩
    have hst1 : st1 = st := by
      have h2 := get_quote_price_offline env st t (henv.1 t)
      rw [hq] at h2
      exact h2
    rcases r with e | quote
    · exact hst1
    · rw [resolveDetails_offline env henv st1 t _, hst1]

theorem resolveAll_offline (env : Remote) (henv : Unreachable env) :
    ∀ (ps : List PortfolioPosition) (st : Caches), (resolveAll env st ps).2 = st := by
  intro ps
  induction ps with
  | nil => intro st; rfl
  | cons p ps ih =>
    intro st
    simp only [resolveAll]
    rcases h1 : handle_position env st p with ⟨r, st1⟩
    have e1 : st1 = st := by
      have h2 := handle_position_offline env henv st p
      rw [h1] at h2
      exact h2
    dsimp only
    rcases h2 : resolveAll env st1 ps with ⟨acc, st2⟩
    have e2 : st2 = st1 := by
      have h3 := ih st1
      rw [h2] at h3
      exact h3
    rcases r with e | p' <;> simpa using e2.trans e1

theorem get_quote_price_offline_hit (env : Remote) (st : Caches) (t : String)
    (h : exceptIsErr (env.latestQuotes t) = true)
    (hc : (alLookup st.quoteCache t).isSome = true) :
    exceptIsErr (get_quote_price env st t).1 = false := by
  unfold get_quote_price
  rcases hq : env.latestQuotes t with e | r
  · rcases hc2 : alLookup st.quoteCache t with _ | c
    · rw [hc2] at hc
      simp at hc
    · simp [exceptIsErr]
  · rw [hq] at h
    simp [exceptIsErr] at h

theorem get_quote_name_offline_hit (env : Remote) (st : Caches) (t : String)
    (h : exceptIsErr (env.searchTicker t) = true)
    (hc : (alLookup st.nameCache t).isSome = true) :
    exceptIsErr (get_quote_name env st t).1 = false := by
  unfold get_quote_name
  rcases hq : env.searchTicker t with e | r
  · rcases hc2 : alLookup st.nameCache t with _ | nm
    · rw [hc2] at hc
      simp at hc
    · simp [exceptIsErr]
  · rw [hq] at h
    simp [exceptIsErr] at h

theorem resolveDetails_isErr (env : Remote) (st : Caches) (t : String)
    (pos1 : PortfolioPosition) :
    exceptIsErr (resolveDetails env st t pos1).1 =
      (pos1.name.isNone && exceptIsErr (get_quote_name env st t).1) := by
  unfold resolveDetails
  rcases hp2 : applyPrevClose env st t pos1 with ⟨pos2, st2⟩
  dsimp only
  rcases hp3 : applyBackfill env st2 t pos2 with ⟨pos3, st3⟩
  have hname2 : pos2.name = pos1.name := by
    have a := (applyPrevClose_fst env st t pos1).1
    rw [hp2] at a
    exact a
  have hname3 : pos3.name = pos2.name := by
    have a := (applyBackfill_fst env st2 t pos2).1
    rw [hp3] at a
    exact a
  have hnc2 : st2.nameCache = st.nameCache := by
    have a := applyPrevClose_nameCache env st t pos1
    rw [hp2] at a
    exact a
  have hnc3 : st3.nameCache = st2.nameCache := by
    have a := applyBackfill_nameCache env st2 t pos2
    rw [hp3] at a
    exact a
  rw [applyName_isErr, hname3, hname2,
    get_quote_name_fst_congr env st3 st t (hnc3.trans hnc2)]

theorem handle_position_isErr_eq (env : Remote) (st : Caches) (pos : PortfolioPosition) :
    exceptIsErr (handle_position env st pos).1 =
      (match pos.ticker with
       | none => false
       | some t =>
         exceptIsErr (get_quote_price env st t).1 ||
           (pos.name.isNone && exceptIsErr (get_quote_name env st t).1)) := by
  unfold handle_position
  split
  · rfl
  · rename_i tOpt t heq
    rcases hq : get_quote_price env st t with ⟨r, st1⟩
    have hnc1 : st1.nameCache = st.nameCache := by
      have a := get_quote_price_nameCache env st t
      rw [hq] at a
      exact a
    rcases r with e | quote
    · simp [exceptIsErr]
    · dsimp only
      rw [resolveDetails_isErr]
      simp only [exceptIsErr, Bool.false_or]
      rw [get_quote_name_fst_congr env st1 st t hnc1]

theorem handle_position_offline_ok (env : Remote) (henv : Unreachable env)
    (st : Caches) (pos : PortfolioPosition)
    (hq : ∀ t, pos.ticker = some t → (alLookup st.quoteCache t).isSome = true)
    (hn : ∀ t, pos.ticker = some t → pos.name = none →
      (alLookup st.nameCache t).isSome = true) :
    exceptIsErr (handle_position env st pos).1 = false := by
  rw [handle_position_isErr_eq]
  rcases hpt : pos.ticker with _ | t
  · rfl
  · have h1 := get_quote_price_offline_hit env st t (henv.1 t) (hq t hpt)
    dsimp only
    rw [h1]
    simp only [Bool.false_or]
    rcases hnm : pos.name with _ | n
    · have h2 := get_quote_name_offline_hit env st t (henv.2.2.2 t) (hn t hpt hnm)
      simp [h2]
    · simp

theorem resolveAll_offline_counts (env : Remote) (henv : Unreachable env) :
    ∀ (ps : List PortfolioPosition) (st : Caches), WarmFor st ps →
      (resolveAll env st ps).1.2.1 = ps.length ∧ (resolveAll env st ps).1.2.2 = 0 := by
  intro ps
  induction ps with
  | nil => intro st _; exact ⟨rfl, rfl⟩
  | cons p ps ih =>
    intro st hw
    simp only [resolveAll]
    rcases h1 : handle_position env st p with ⟨r, st1⟩
    have e1 : st1 = st := by
      have h2 := handle_position_offline env henv st p
      rw [h1] at h2
      exact h2
    have hok : exceptIsErr r = false := by
      have h2 := handle_position_offline_ok env henv st p
        (fun t ht => (hw p (List.mem_cons_self p ps) t ht).1)
        (fun t ht hnm => (hw p (List.mem_cons_self p ps) t ht).2 hnm)
      rw [h1] at h2
      exact h2
    dsimp only
    rcases h2 : resolveAll env st1 ps with ⟨acc, st2⟩
    have ihh := ih st1 (by
      rw [e1]
      exact fun q hq2 => hw q (List.mem_cons_of_mem p hq2))
    rw [h2] at ihh
    rcases r with e | p'
    · simp [exceptIsErr] at hok
    · simpa using ⟨ihh.1, ihh.2⟩

theorem lotFrame_refl (p : Purchase) : lotFrame p p :=
  ⟨rfl, rfl, rfl, fun _ hv _ => hv⟩

theorem lotsFrame_refl : ∀ l : List Purchase, lotsFrame l l := by
  intro l
  induction l with
  | nil => trivial
  | cons p ps ih => exact ⟨lotFrame_refl p, ih⟩

theorem backfillOne_lotFrame (env : Remote) (st : Caches) (t : String) (p : Purchase) :
    lotFrame p (backfillOne env st t p).1 := by
  unfold backfillOne
  split
  · rename_i hcond
    have hineq : ∀ v : ℚ, p.price = some v → 0 < v → False := by
      intro v hv hvpos
      have hnp := hcond.1
      simp [purchaseNeedsPrice, hv] at hnp
      exact absurd hvpos (not_lt.mpr hnp)
    split
    · split
      · rename_i xOpt ts hts
        rcases hgp : get_historic_price env st t ts with ⟨r, st'⟩
        rcases r with e | resp
        · exact lotFrame_refl p
        · obtain ⟨lq, ql⟩ := resp
          rcases lq with e2 | q
          · rcases ql with e3 | qs
            · exact lotFrame_refl p
            · rcases hql : qs.getLast? with _ | lastq
              · simp only [hql]
                exact lotFrame_refl p
              · simp only [hql]
                exact ⟨rfl, rfl, rfl, fun v hv hvpos => (hineq v hv hvpos).elim⟩
          · exact ⟨rfl, rfl, rfl, fun v hv hvpos => (hineq v hv hvpos).elim⟩
      · exact lotFrame_refl p
    · exact lotFrame_refl p
  · exact lotFrame_refl p

theorem backfillList_lotsFrame (env : Remote) (t : String) :
    ∀ (ps : List Purchase) (st : Caches), lotsFrame ps (backfillList env t st ps).1 := by
  intro ps
  induction ps with
  | nil => intro st; trivial
  | cons p ps ih =>
    intro st
    simp only [backfillList]
    rcases h1 : backfillOne env st t p with ⟨pp, st1⟩
    dsimp only
    have h2 := backfillOne_lotFrame env st t p
    rw [h1] at h2
    exact ⟨h2, ih st1⟩

theorem applyBackfill_lotsFrame (env : Remote) (st : Caches) (t : String)
    (pos : PortfolioPosition) :
    lotsFrame pos.purchases ((applyBackfill env st t pos).1).purchases := by
  unfold applyBackfill
  by_cases he : pos.purchases.isEmpty
  · simp only [he, if_true]
    exact lotsFrame_refl _
  · rcases hb : backfillList env t st pos.purchases with ⟨filled, st'⟩
    have h2 := backfillList_lotsFrame env t pos.purchases st
    rw [hb] at h2
    simp only [he, if_neg, Bool.false_eq_true]
    simpa using h2

theorem resolveDetails_frame (env : Remote) (st : Caches) (t : String)
    (pos1 q : PortfolioPosition) (h : (resolveDetails env st t pos1).1 = .ok q) :
    q.ticker = pos1.ticker ∧ q.asset_class = pos1.asset_class ∧
    q.amount = pos1.amount ∧ lotsFrame pos1.purchases q.purchases ∧
    (∀ n, pos1.name = some n → q.name = some n) := by
  unfold resolveDetails at h
  rcases hp2 : applyPrevClose env st t pos1 with ⟨pos2, st2⟩
  rw [hp2] at h
  dsimp only at h
  rcases hp3 : applyBackfill env st2 t pos2 with ⟨pos3, st3⟩
  rw [hp3] at h
  dsimp only at h
  have f2 := applyPrevClose_fst env st t pos1
  rw [hp2] at f2
  have f3 := applyBackfill_fst env st2 t pos2
  rw [hp3] at f3
  have fl3 := applyBackfill_lotsFrame env st2 t pos2
  rw [hp3] at fl3
  dsimp only at f2 f3 fl3
  have hpur2 : pos2.purchases = pos1.purchases := f2.2.2.2.2.2
  have hlots : lotsFrame pos1.purchases pos3.purchases := by
    rw [hpur2] at fl3
    exact fl3
  have htk : pos3.ticker = pos1.ticker := f3.2.1.trans f2.2.1
  have hac : pos3.asset_class = pos1.asset_class := f3.2.2.1.trans f2.2.2.1
  have ham : pos3.amount = pos1.amount := f3.2.2.2.1.trans f2.2.2.2.1
  have hnm3 : pos3.name = pos1.name := f3.1.trans f2.1
  unfold applyName at h
  rcases hname : pos3.name with _ | n
  · rw [hname] at h
    rcases hq : get_quote_name env st3 t with ⟨r, st4⟩
    rw [hq] at h
    rcases r with e | nm
    · exact absurd h (by simp)
    · dsimp only at h
      have hq2 : q = { pos3 with name := some nm } := (Except.ok.inj h).symm
      subst hq2
      refine ⟨htk, hac, ham, hlots, ?_⟩
      intro n hn
      rw [hn] at hnm3
      rw [hname] at hnm3
      exact absurd hnm3 (by simp)
  · rw [hname] at h
    dsimp only at h
    have hq2 : q = pos3 := (Except.ok.inj h).symm
    subst hq2
    refine ⟨htk, hac, ham, hlots, ?_⟩
    intro n2 hn2
    rw [hnm3, hn2]

/-- C5: for every position with `ticker == None` (a cash position), in every
cache and provider state, `handle_position` returns the position unchanged as
a success and leaves every cache unchanged (no quote fetch is performed), and
the computed balance equals the declared amount. -/
theorem c5_cash_position (env : Remote) (st : Caches) (pos : PortfolioPosition)
    (h : pos.ticker = none) :
    handle_position env st pos = (.ok pos, st) ∧ get_balance pos = pos.amount := by
  constructor
  · unfold handle_position
    rw [h]
  · unfold get_balance
    rw [h]

/-- Witness for C5: a concrete cash position, an unreachable provider and
empty caches. -/
theorem c5_cash_position_witness :
    handle_position envDown Caches.empty posCash = (.ok posCash, Caches.empty) ∧
    get_balance posCash = 1000 :=
  c5_cash_position envDown Caches.empty posCash rfl

/-- C6: for every ticker-backed position, the balance equals
`last_spot × effective quantity`, where the effective quantity
(`get_amount`) is the sum of the purchase lots' quantities whenever the lot
list is non-empty (overriding the declared amount) and the declared amount
otherwise. -/
theorem c6_ticker_balance (pos : PortfolioPosition) (t : String)
    (h : pos.ticker = some t) :
    get_balance pos = pos.last_spot * get_amount pos ∧
    (pos.purchases ≠ [] → get_amount pos = sumQuantities pos.purchases) ∧
    (pos.purchases = [] → get_amount pos = pos.amount) := by
  refine ⟨?_, ?_, ?_⟩
  · unfold get_balance get_amount
    rw [h]
  · intro hne
    simp [get_amount, hne]
  · intro he
    simp [get_amount, he]

/-- Witness for C6 at a concrete ticker position holding one lot. -/
theorem c6_ticker_balance_witness :
    get_balance posLot10 = posLot10.last_spot * get_amount posLot10 :=
  (c6_ticker_balance posLot10 "T" rfl).1

/-- C7 counterexample: claim C7 demands the cost/quantity ratio over exactly
the lots with a known positive price, with `None` exactly when no such lot
exists (`average_cost_claimC7`). On the position holding the single lot
`{quantity := -1, price := 100}`, a qualifying lot exists and the claim's
formula yields 100, but the code returns `None` because its final test is
`total_quantity > 0`, not the existence of a qualifying lot. -/
theorem c7_average_cost_counterexample :
    average_cost posNegQty = none ∧ average_cost_claimC7 posNegQty = some 100 := by
  constructor
  · norm_num [average_cost, posNegQty, avgStep]
  · norm_num [average_cost_claimC7, posNegQty, filteredCost, filteredQty,
      lotHasKnownPositivePrice]

/-- C7 (amended): `average_cost` equals
`Σ(quantity×price + fees) / Σ quantity` over exactly the lots with a known
price > 0 (missing fees counted as 0) whenever that total quantity is
positive, and is `None` otherwise — in particular when no such lot exists;
for the single lot {qty 10, price 100, fees 5} it equals 100.5. -/
theorem c7_average_cost_amended :
    (∀ pos : PortfolioPosition,
      average_cost pos =
        if 0 < filteredQty pos.purchases
        then some (filteredCost pos.purchases / filteredQty pos.purchases)
        else none) ∧
    average_cost posLot10 = some (201 / 2) := by
  constructor
  · intro pos
    unfold average_cost
    by_cases he : pos.purchases.isEmpty
    · have hnil : pos.purchases = [] := by simpa using he
      simp [he, hnil, filteredQty]
    · simp only [he, Bool.false_eq_true, if_false, avgFoldEq, zero_add]
  · norm_num [average_cost, posLot10, lotQty10, avgStep]

/-- C3 counterexample: at zero successes and zero failures (the empty
portfolio) the code reports `Connected`, so the claim's two biconditionals
"Connected iff f = 0" and "Disconnected iff s = 0" cannot both hold there:
s = 0 yet the status is not `Disconnected`. -/
theorem c3_connectivity_counterexample :
    ¬ ((computeNetworkStatus 0 0 = NetworkStatus.connected ↔ (0 : Nat) = 0) ∧
       (computeNetworkStatus 0 0 = NetworkStatus.disconnected ↔ (0 : Nat) = 0)) := by
  decide

/-- C3 (amended): the refresh cycle reports
`computeNetworkStatus s f` for its success/failure counts, and for all
counts the status is `Connected` iff f = 0 (including the empty cycle
s = f = 0, which reports `Connected`), `Disconnected` iff s = 0 and f ≠ 0,
and `Partial` (`mixed`) iff s ≠ 0 and f ≠ 0. -/
theorem c3_connectivity_amended :
    (∀ (env : Remote) (st : Caches) (ps : List PortfolioPosition),
      (create_live_portfolio_with_logging env st ps).1.2 =
        computeNetworkStatus (resolveAll env st ps).1.2.1 (resolveAll env st ps).1.2.2) ∧
    (∀ s f : Nat,
      (computeNetworkStatus s f = NetworkStatus.connected ↔ f = 0) ∧
      (computeNetworkStatus s f = NetworkStatus.disconnected ↔ s = 0 ∧ f ≠ 0) ∧
      (computeNetworkStatus s f = NetworkStatus.mixed ↔ s ≠ 0 ∧ f ≠ 0)) := by
  constructor
  · intro env st ps
    unfold create_live_portfolio_with_logging
    rcases h : resolveAll env st ps with ⟨acc, st'⟩
    rfl
  · intro s f
    unfold computeNetworkStatus
    by_cases hf : f = 0
    · simp [hf]
    · by_cases hs : s = 0
      · simp [hf, hs]
      · simp [hf, hs]

/-- C2 counterexample: the previous-close cache is primed with 42 for "T",
and the provider's transport call succeeds but its response carries no usable
quotes, so the fetch produces no value. The claim's contract requires the
stored 42 to be returned as a success; `get_previous_close` instead returns
`NoResult` without consulting the cache. -/
theorem c2_cache_fallback_counterexample :
    alLookup stPrimedPrev.prevCloseCache "T" = some 42 ∧
    (get_previous_close envWeekEmpty stPrimedPrev "T").1 =
      Except.error YError.noResult := by
  constructor
  · rfl
  · rfl

/-- C2 (amended): the latest-price and historic-price caches satisfy the
get-or-fetch contract for every outcome — a successful remote call stores the
response under the key and returns it, a failed call returns the cached value
if present and otherwise propagates the error. The previous-close and
display-name fetches satisfy that contract whenever the transport call itself
fails, but a transport-successful response from which no value can be
extracted (a failed or empty quote list; an empty search result set) returns
an error without storing anything and without consulting the cache. -/
theorem c2_cache_contract_amended (env : Remote) (st : Caches) (t : String) (ts : Int) :
    (get_quote_price env st t =
      (getOrFetchSpec (alLookup st.quoteCache t) (env.latestQuotes t),
       match env.latestQuotes t with
       | .ok r => { st with quoteCache := alInsert st.quoteCache t r }
       | .error _ => st)) ∧
    (get_historic_price env st t ts =
      (getOrFetchSpec (alLookup st.historicCache (t, ts)) (env.quoteHistoryAt t ts),
       match env.quoteHistoryAt t ts with
       | .ok r => { st with historicCache := alInsert st.historicCache (t, ts) r }
       | .error _ => st)) ∧
    (get_previous_close env st t =
      (match env.quoteHistoryWeek t with
       | .ok resp =>
         (prevCloseResult resp,
          match prevCloseResult resp with
          | .ok pc => { st with prevCloseCache := alInsert st.prevCloseCache t pc }
          | .error _ => st)
       | .error e =>
         (getOrFetchSpec (alLookup st.prevCloseCache t) (.error e), st))) ∧
    (get_quote_name env st t =
      (match env.searchTicker t with
       | .ok resp =>
         (nameResult resp,
          match nameResult resp with
          | .ok nm => { st with nameCache := alInsert st.nameCache t nm }
          | .error _ => st)
       | .error e =>
         (getOrFetchSpec (alLookup st.nameCache t) (.error e), st))) := by
  refine ⟨?_, ?_, ?_, ?_⟩
  · unfold get_quote_price getOrFetchSpec
    rcases env.latestQuotes t with e | r
    · rcases alLookup st.quoteCache t with _ | c <;> rfl
    · rfl
  · unfold get_historic_price getOrFetchSpec
    rcases env.quoteHistoryAt t ts with e | r
    · rcases alLookup st.historicCache (t, ts) with _ | c <;> rfl
    · rfl
  · unfold get_previous_close getOrFetchSpec prevCloseResult
    rcases env.quoteHistoryWeek t with e | r
    · rcases alLookup st.prevCloseCache t with _ | c <;> rfl
    · obtain ⟨lq, ql⟩ := r
      rcases ql with e | qs
      · rfl
      · rcases hpc : prevCloseOf qs with _ | pc <;> simp [hpc]
  · unfold get_quote_name getOrFetchSpec nameResult
    rcases env.searchTicker t with e | r
    · rcases alLookup st.nameCache t with _ | c <;> rfl
    · obtain ⟨names⟩ := r
      rcases names with _ | ⟨nm, rest⟩ <;> rfl

/-- C4 counterexample: with a provider whose latest-price call succeeds (so
step 2 succeeds) but whose name search fails, and empty caches, resolving a
nameless ticker position returns an error: the step-5 display-name lookup
failure aborts resolution through the `?` at the end of `handle_position`,
contradicting the claim that failures in steps 3-5 never cause an error. -/
theorem c4_best_effort_counterexample :
    (get_quote_price envOkQuote Caches.empty "XYZ").1 = Except.ok respOk ∧
    (handle_position envOkQuote Caches.empty posNameless).1 =
      Except.error (YError.err "search failed") := by
  constructor
  · rfl
  · rfl

/-- C4 (amended): resolution of a position fails exactly when the
latest-price fetch of step 2 fails, or the position has no declared name and
the step-5 display-name lookup fails; the previous-close fetch (step 3) and
the purchase-price backfill (step 4) are best-effort and never cause an
error — the right-hand side below does not depend on their outcomes. -/
theorem c4_error_propagation_amended (env : Remote) (st : Caches)
    (pos : PortfolioPosition) :
    exceptIsErr (handle_position env st pos).1 =
      (match pos.ticker with
       | none => false
       | some t =>
         exceptIsErr (get_quote_price env st t).1 ||
           (pos.name.isNone && exceptIsErr (get_quote_name env st t).1)) :=
  handle_position_isErr_eq env st pos

/-- C1: both historic aggregators return exactly the independent per-item
characterization: each ticker contributes `close × amount` when its fetch
yields a last quote and is skipped otherwise (never aborting the aggregate);
a failed fetch whose error display contains "Bad Request" records no
warning, every other per-item failure records one; the result is
`Err(joined warnings)` exactly when the aggregate (including cash for the
total variant) is non-positive and at least one warning exists, and
`Ok(aggregate)` otherwise. Concretely: with two tickers succeeding (closes
10 and 20, amounts 2 and 3), one Bad-Request ticker and cash 100, the total
is `Ok 180`; with the single ticker failing (non-Bad-Request) and no cash,
the result is the joined warning. -/
theorem c1_historic_aggregation_policy :
    (∀ (env : Remote) (st : Caches) (pf : Portfolio) (ts : Int),
      (get_historic_total_value env st pf ts).1 =
        (let z := (tickerItems pf).zip
          (historicFetches env ts st ((tickerItems pf).map (·.1))).1
         let S := histContribution z + cashSum pf
         let W := histWarnings z
         if S ≤ 0 ∧ W ≠ [] then Except.error (String.intercalate semicolonSep W)
         else Except.ok S)) ∧
    (∀ (env : Remote) (st : Caches) (pf : Portfolio) (ts : Int),
      (get_historic_securities_value env st pf ts).1 =
        (let z := (tickerItems pf).zip
          (historicFetches env ts st ((tickerItems pf).map (·.1))).1
         let S := histContribution z
         let W := histWarnings z
         if S ≤ 0 ∧ W ≠ [] then Except.error (String.intercalate semicolonSep W)
         else Except.ok S)) ∧
    (get_historic_total_value envHist Caches.empty pfHist 0).1 = Except.ok 180 ∧
    (get_historic_total_value envHistDown Caches.empty pfHistNoCash 0).1 =
      Except.error "Error getting historic price data for AAA: timeout" := by
  refine ⟨?_, ?_, ?_, ?_⟩
  · intro env st pf ts
    unfold get_historic_total_value
    dsimp only
    rw [histFoldEq]
    simp only [zero_add, List.nil_append, apply_ite (Prod.fst (β := Caches))]
  · intro env st pf ts
    unfold get_historic_securities_value
    dsimp only
    rw [histFoldEq]
    simp only [zero_add, List.nil_append, apply_ite (Prod.fst (β := Caches))]
  · have h1 : strContainsSub "HTTP 400 Bad Request" badRequestMarker = true := by decide
    have e2 : ¬(("BBB" : String) = "AAA") := by decide
    have e3 : ¬(("CCC" : String) = "AAA") := by decide
    have e4 : ¬(("CCC" : String) = "BBB") := by decide
    have e5 : ¬(("AAA" : String) = "BBB") := by decide
    have e6 : ¬(("AAA" : String) = "CCC") := by decide
    have e7 : ¬(("BBB" : String) = "CCC") := by decide
    simp only [respQ, get_historic_total_value, tickerItems, pfHist, envHist, cashSum,
      get_amount, historicFetches, get_historic_price, historicStep, alInsert, alLookup,
      List.filterMap_cons, List.filterMap_nil, List.zip_cons_cons, List.zip_nil_right,
      List.zip_nil_left, List.foldl_cons, List.foldl_nil, List.map_cons, List.map_nil,
      List.sum_cons, List.sum_nil, msgHistoric, semicolonSep, YError.displayStr, h1,
      e2, e3, e4, e5, e6, e7, Prod.mk.injEq, if_true, if_false, ite_true, ite_false,
      sumQuantities, get_name, List.isEmpty_cons, List.isEmpty_nil]
    norm_num [h1]
  · have h1 : strContainsSub "timeout" badRequestMarker = false := by decide
    simp only [respQ, get_historic_total_value, tickerItems, pfHistNoCash, envHistDown,
      cashSum, get_amount, historicFetches, get_historic_price, historicStep, alInsert,
      alLookup, List.filterMap_cons, List.filterMap_nil, List.zip_cons_cons,
      List.zip_nil_right, List.zip_nil_left, List.foldl_cons, List.foldl_nil,
      List.map_cons, List.map_nil, List.sum_cons, List.sum_nil, msgHistoric,
      semicolonSep, YError.displayStr, h1, sumQuantities, get_name,
      List.isEmpty_cons, List.isEmpty_nil]
    norm_num [String.intercalate, String.intercalate.go]
    rfl

/-- C8: for every portfolio with at least one position and positive total
value, the allocation map carries, for each asset class, exactly the sum of
the separately computed per-position percentages `balance/total_value×100`
of the positions of that class (the source's per-position summation), and
the percentages over all asset classes sum to exactly 100 in exact
arithmetic. -/
theorem c8_allocation_sum (pf : Portfolio) (hne : pf.positions ≠ [])
    (hpos : 0 < get_total_value pf) :
    sumValues (get_allocation pf) = 100 ∧
    (∀ c, alLookup (get_allocation pf) c =
      (if (pf.positions.filter fun pos => decide (pos.asset_class = c)) = [] then none
       else some (((pf.positions.filter fun pos => decide (pos.asset_class = c)).map
         (fun pos => get_balance pos / get_total_value pf * 100)).sum))) := by
  have htot := get_total_value_eq pf
  have hT : get_total_value pf ≠ 0 := ne_of_gt hpos
  constructor
  · unfold get_allocation
    rw [allocFoldSum (fun pos => pos.asset_class)
      (fun pos => get_balance pos / get_total_value pf * 100) pf.positions []]
    have hmap : pf.positions.map (fun pos => get_balance pos / get_total_value pf * 100) =
        pf.positions.map (fun pos => get_balance pos * (100 / get_total_value pf)) := by
      apply List.map_congr_left
      intro a _
      ring
    rw [hmap, List.sum_map_mul_right, ← htot]
    have hz : sumValues ([] : List (String × ℚ)) = 0 := rfl
    rw [hz, zero_add]
    field_simp
  · intro c
    unfold get_allocation
    rw [allocFoldLookup (fun pos => pos.asset_class)
      (fun pos => get_balance pos / get_total_value pf * 100) pf.positions [] c]
    simp [alLookup]

/-- Witness for C8 at a two-position, two-class portfolio with total 100. -/
theorem c8_allocation_sum_witness : sumValues (get_allocation pfAlloc) = 100 :=
  (c8_allocation_sum pfAlloc (by decide) (by norm_num [get_total_value, pfAlloc,
    get_balance])).1

/-- C9: resolving the same declared portfolio twice within one process while
the provider is unreachable but every needed cache entry is warm leaves every
cache entry unchanged after the first run, makes the second run return
exactly the first run's result (hence identical balances), and resolves every
position successfully. -/
theorem c9_offline_warm_roundtrip (env : Remote) (st : Caches)
    (ps : List PortfolioPosition) (henv : Unreachable env) (hw : WarmFor st ps) :
    (resolveAll env st ps).2 = st ∧
    resolveAll env ((resolveAll env st ps).2) ps = resolveAll env st ps ∧
    ((resolveAll env ((resolveAll env st ps).2) ps).1.1.map get_balance =
      (resolveAll env st ps).1.1.map get_balance) ∧
    (resolveAll env st ps).1.2.1 = ps.length ∧
    (resolveAll env st ps).1.2.2 = 0 := by
  have hst := resolveAll_offline env henv ps st
  have hc := resolveAll_offline_counts env henv ps st hw
  refine ⟨hst, ?_, ?_, hc.1, hc.2⟩
  · rw [hst]
  · rw [hst]

/-- Witness for C9: one named ticker position, an unreachable provider, and
a quote cache warm for its ticker. -/
theorem c9_offline_warm_roundtrip_witness :
    (resolveAll envDown stWarmNamed [posNamed]).2 = stWarmNamed ∧
    (resolveAll envDown stWarmNamed [posNamed]).1.2.2 = 0 := by
  have henv : Unreachable envDown :=
    ⟨fun _ => rfl, fun _ => rfl, fun _ _ => rfl, fun _ => rfl⟩
  have hw : WarmFor stWarmNamed [posNamed] := by
    intro p hp t ht
    simp only [List.mem_singleton] at hp
    subst hp
    have ht2 : some "T" = some t := ht
    injection ht2 with ht3
    subst ht3
    exact ⟨rfl, fun habs => Option.noConfusion habs⟩
  have h := c9_offline_warm_roundtrip envDown stWarmNamed [posNamed] henv hw
  exact ⟨h.1, h.2.2.2.2⟩

/-- C10: `handle_position` never changes a position's ticker, asset class or
declared amount, never changes a purchase lot's date, quantity or fees,
never overwrites a lot price that is already positive, and never overwrites
a name that is already set: whenever resolution succeeds, the resolved
position agrees with the declared one on all those fields. -/
theorem c10_handle_position_frame (env : Remote) (st : Caches)
    (pos pos' : PortfolioPosition) (h : (handle_position env st pos).1 = .ok pos') :
    pos'.ticker = pos.ticker ∧ pos'.asset_class = pos.asset_class ∧
    pos'.amount = pos.amount ∧ lotsFrame pos.purchases pos'.purchases ∧
    (∀ n, pos.name = some n → pos'.name = some n) := by
  unfold handle_position at h
  split at h
  · have hpp : pos = pos' := Except.ok.inj h
    subst hpp
    exact ⟨rfl, rfl, rfl, lotsFrame_refl _, fun _ hn => hn⟩
  · rename_i tOpt t heq
    rcases hq : get_quote_price env st t with ⟨r, st1⟩
    rw [hq] at h
    rcases r with e | quote
    · exact absurd h (by simp)
    · dsimp only at h
      have hfr := resolveDetails_frame env st1 t _ pos' h
      exact ⟨hfr.1, hfr.2.1, hfr.2.2.1, hfr.2.2.2.1, hfr.2.2.2.2⟩

/-- Witness for C10: resolving `posNamed` against `envOkQuote` writes only
`last_spot`; the frame fields are untouched and the single positive-priced
lot keeps its price. -/
theorem c10_handle_position_frame_witness :
    posNamedResolved.ticker = posNamed.ticker ∧
    posNamedResolved.amount = posNamed.amount ∧
    lotsFrame posNamed.purchases posNamedResolved.purchases ∧
    posNamedResolved.name = some "N" := by
  have h := c10_handle_position_frame envOkQuote Caches.empty posNamed
    posNamedResolved rfl
  exact ⟨h.1, h.2.2.1, h.2.2.2.1, h.2.2.2.2 "N" rfl⟩
